import Mathlib

/-!
Shallow embedding of the query-understanding and retrieval-fusion pipeline of
the Persian sales chatbot (`megachat`), together with proofs of the specified
properties.

Conventions used throughout the embedding:

* Python `float` scores are modelled as `ℚ`; the claims concern order and
  arithmetic structure, not IEEE rounding.
* Python `None`-able values are modelled as `Option`; Python truthiness of a
  value (`if x:`) is modelled by explicit `truthy…` predicates (`None`, `""`,
  `0`, `[]` and empty dictionaries are falsy).
* The repository's Persian string literals were damaged by a character-encoding
  round trip before commit, so regular-expression pattern literals are
  represented by opaque numeric tokens and the regex engine by an abstract
  matcher `reSearch : Nat → String → Bool`; none of the verified claims depends
  on the text of a pattern, only on the pattern lists' structure.
* External collaborators (Redis cache, Qdrant search, the embedding model, the
  LLM and the cross-encoder) are modelled as abstract functions supplied as
  parameters, mirroring the constructor dependency injection in the source.
-/

set_option autoImplicit false

namespace Megachat

/-- Modelled from the spec (§3 Data Model): `app/models/schemas.py` is not part
of the sources available here.  `Product` is the catalog entity; only the
fields read by the embedded pipeline code (`id`, `name`, `description`,
`brand`) are included — the remaining catalog fields (price, availability,
features, metadata, timestamps) are never consulted by the retrieval, fusion
or reranking logic. -/
structure Product where
  id : Nat
  name : String := ""
  description : Option String := none
  brand : Option String := none
deriving DecidableEq, Repr

/-- Modelled from the spec (§3 Data Model): a retrieval hit
`{product reference, relevance score, rank (1-based, assigned after
sorting)}`.  The rank defaults to `0` ("unassigned") because
`retriever.py` constructs `RetrievedDocument(product=…, score=…)` without a
rank and assigns ranks only after sorting. -/
structure RetrievedDocument where
  product : Product
  score : ℚ
  rank : Nat := 0
deriving DecidableEq, Repr

instance : Inhabited RetrievedDocument := ⟨⟨⟨0, "", none, none⟩, 0, 0⟩⟩

/-- Modelled from the spec (§3 Data Model): the closed intent enumeration.
The constructor order is the insertion order of `IntentDetector.intent_patterns`
in `app/services/intent.py`, which is the order Python's insertion-ordered
`dict` iterates in and hence the tie-break order of `detect_intent`. -/
inductive IntentType where
  | PRICE_CHECK
  | AVAILABILITY
  | FEATURE_INQUIRY
  | COMPARISON
  | SHIPPING
  | PURCHASE
  | GREETING
  | GENERAL
deriving DecidableEq, Repr

/-- Modelled from the spec (§3 Data Model): the `price_range` slot value
`{min, max}` built by `IntentDetector.extract_slots`. -/
structure PriceRange where
  min : Nat
  max : Nat
deriving DecidableEq, Repr

/-- Modelled from the spec (§3 Data Model): the optional extracted entities.
All fields independently optional; absence (`none`) means "not mentioned". -/
structure Slots where
  product_name : Option String := none
  quantity : Option Nat := none
  price_range : Option PriceRange := none
  color : Option String := none
  brand : Option String := none
  comparison_items : Option (List String) := none
deriving DecidableEq, Repr

/-- Modelled from the spec (§3 Data Model): the classifier output
`{original text, normalized text, intent, slots, confidence}`. -/
structure ParsedQuery where
  original_text : String
  normalized_text : String
  intent : IntentType
  slots : Slots
  confidence : ℚ

/-! ### Python-semantics helpers -/

/-- Python truthiness of an optional string: `None` and `""` are falsy. -/
def truthyStr (o : Option String) : Bool :=
  match o with
  | none => false
  | some s => s ≠ ""

/-- Python truthiness of an optional nonnegative integer: `None` and `0` are
falsy. -/
def truthyNat (o : Option Nat) : Bool :=
  match o with
  | none => false
  | some n => n ≠ 0

/-- Python truthiness of an optional list: `None` and `[]` are falsy. -/
def truthyList (o : Option (List String)) : Bool :=
  match o with
  | none => false
  | some l => l ≠ []

/-- Python truthiness of the optional `price_range` dict: `extract_slots` only
ever stores two-entry dictionaries, which are always truthy. -/
def truthyRange (o : Option PriceRange) : Bool :=
  o.isSome

/-- Python's `x or default` idiom on an optional integer argument, as used for
`top_k = top_k or settings.RETRIEVAL_TOP_K` and
`num_variations = num_variations or settings.QUERY_VARIATIONS`:
`None` and `0` fall back to the default. -/
def pyOrNat (o : Option Nat) (dflt : Nat) : Nat :=
  match o with
  | none => dflt
  | some 0 => dflt
  | some n => n

/-- Python's built-in `max` on a list of counts (`max(scores.values())`);
the argument is never empty at its call site, `[]` is mapped to `0`. -/
def pyListMax (l : List Nat) : Nat :=
  match l with
  | [] => 0
  | v :: vs => vs.foldl max v

/-- Python's built-in `min` on a list of prices (`min(prices)`); the argument
is never empty at its call site, `[]` is mapped to `0`. -/
def pyListMin (l : List Nat) : Nat :=
  match l with
  | [] => 0
  | v :: vs => vs.foldl min v

/-! ### `app/services/intent.py` — `IntentDetector` -/

namespace IntentDetector

/-- `IntentDetector.intent_patterns` from `app/services/intent.py`.  Each
regular-expression literal is represented by an opaque numeric token (the
literals themselves were corrupted by the encoding round trip; their text is
irrelevant to the verified claims).  Token `k` stands for the `k`-th pattern
literal of the file, reading the dictionary top to bottom:
`PRICE_CHECK` patterns 0–5, `AVAILABILITY` 6–11, `FEATURE_INQUIRY` 12–21,
`COMPARISON` 22–28, `SHIPPING` 29–35, `PURCHASE` 36–39, `GREETING` 40–45. -/
def intent_patterns : List (IntentType × List Nat) :=
  [ (.PRICE_CHECK, [0, 1, 2, 3, 4, 5]),
    (.AVAILABILITY, [6, 7, 8, 9, 10, 11]),
    (.FEATURE_INQUIRY, [12, 13, 14, 15, 16, 17, 18, 19, 20, 21]),
    (.COMPARISON, [22, 23, 24, 25, 26, 27, 28]),
    (.SHIPPING, [29, 30, 31, 32, 33, 34, 35]),
    (.PURCHASE, [36, 37, 38, 39]),
    (.GREETING, [40, 41, 42, 43, 44, 45]) ]

/-- The per-intent score table built by `detect_intent`: for each intent, the
number of its patterns for which `re.search` succeeds on the lower-cased text
(`reSearch` abstracts `re.search pattern text_lower`). -/
def scoreTable (reSearch : Nat → String → Bool) (text_lower : String) :
    List (IntentType × Nat) :=
  intent_patterns.map fun p => (p.1, (p.2.filter fun pat => reSearch pat text_lower).length)

/-- Python's `max(scores, key=scores.get)` over the insertion-ordered score
dictionary: scan left to right keeping the current entry unless a strictly
greater value appears, then return its key.  `max` raises on an empty
dictionary; the table here always has seven entries, `[]` is mapped to
`GENERAL`. -/
def argmaxKey (l : List (IntentType × Nat)) : IntentType :=
  match l with
  | [] => .GENERAL
  | p :: rest => (rest.foldl (fun best q => if best.2 < q.2 then q else best) p).1

/-- `IntentDetector.detect_intent`: score every intent by its count of matching
patterns against the lower-cased text; if the maximum score is positive return
the first key attaining it, otherwise default to `GENERAL`. -/
def detect_intent (reSearch : Nat → String → Bool) (text : String) : IntentType :=
  let text_lower := text.toLower
  let scores := scoreTable reSearch text_lower
  if 0 < pyListMax (scores.map Prod.snd) then argmaxKey scores
  else .GENERAL

/-- The alternatives of the unit capture group of the price slot pattern
`(\d+)\s*(تومان|میلیون|هزار)` (toman / million / thousand); the captured unit
is always exactly one of the three words. -/
inductive PriceUnit where
  | toman
  | million
  | thousand
deriving DecidableEq, Repr

/-- The unit-multiplier branch of `extract_slots`:
`if "میلیون" in unit: price *= 1_000_000 elif "هزار" in unit: price *= 1_000`. -/
def unitApply (price : Nat) (unit : PriceUnit) : Nat :=
  match unit with
  | .million => price * 1000000
  | .thousand => price * 1000
  | .toman => price

/-- The price-range part of `IntentDetector.extract_slots`, taking the list of
`re.findall` reSearch for the price pattern (each a pair of the captured digits
and the captured unit):  apply the unit multiplier to every match; with exactly
one value `v` the slot is `{min: 0, max: v}`, with two or more values it is
`{min: min(prices), max: max(prices)}`; with no reSearch the slot stays unset. -/
def extract_price_range (price_matches : List (Nat × PriceUnit)) : Option PriceRange :=
  if price_matches = [] then none
  else
    let prices := price_matches.map fun m => unitApply m.1 m.2
    if prices.length = 1 then some ⟨0, prices.headD 0⟩
    else if 2 ≤ prices.length then some ⟨pyListMin prices, pyListMax prices⟩
    else none

/-- The slot-field count of `IntentDetector.calculate_confidence`: one per
truthy slot field, in the source's order. -/
def slotCount (slots : Slots) : Nat :=
  (if truthyStr slots.product_name then 1 else 0) +
  (if truthyNat slots.quantity then 1 else 0) +
  (if truthyStr slots.color then 1 else 0) +
  (if truthyStr slots.brand then 1 else 0) +
  (if truthyRange slots.price_range then 1 else 0) +
  (if truthyList slots.comparison_items then 1 else 0)

/-- `IntentDetector.calculate_confidence`: base `0.5`, `+0.2` for a
non-`GENERAL` intent, `+min(slot_count * 0.1, 0.3)`, capped at `1.0`. -/
def calculate_confidence (intent : IntentType) (slots : Slots) : ℚ :=
  let confidence : ℚ := 0.5
  let confidence := if intent ≠ IntentType.GENERAL then confidence + 0.2 else confidence
  let confidence := confidence + min ((slotCount slots : ℚ) * 0.1) 0.3
  min confidence 1

end IntentDetector

/-! ### `app/services/retriever.py` — `MultiQueryRetriever` -/

namespace MultiQueryRetriever

/-- One Qdrant search hit: point id, cosine-similarity score, and the stored
payload, which `search` parses back into a `Product`. -/
structure SearchHit where
  id : Nat
  score : ℚ
  payload : Product
deriving DecidableEq, Repr

/-- First-occurrence lookup in the association list modelling the Python
dictionary `all_results` (`all_results[product_id]`, `product_id in
all_results`). -/
def lookupA (k : Nat) : List (Nat × RetrievedDocument) → Option RetrievedDocument
  | [] => none
  | (k', v) :: rest => if k' = k then some v else lookupA k rest

/-- Python dictionary assignment to an existing key: replace the value in
place, keeping the key's position. -/
def updateA (k : Nat) (v : RetrievedDocument) :
    List (Nat × RetrievedDocument) → List (Nat × RetrievedDocument)
  | [] => []
  | (k', v') :: rest => if k' = k then (k, v) :: rest else (k', v') :: updateA k v rest

/-- The aggregation step of `MultiQueryRetriever.search` for one hit:
`if product_id not in all_results or result.score > all_results[product_id].score:
all_results[product_id] = RetrievedDocument(product=…, score=result.score)`.
A new key is appended (Python dict insertion order); an existing key is
overwritten in place when the new score is strictly greater. -/
def fuseHit (m : List (Nat × RetrievedDocument)) (result : SearchHit) :
    List (Nat × RetrievedDocument) :=
  match lookupA result.id m with
  | none => m ++ [(result.id, { product := result.payload, score := result.score })]
  | some stored =>
      if stored.score < result.score then
        updateA result.id { product := result.payload, score := result.score } m
      else m

/-- The per-variation body of the `search` loop: a failed Qdrant search is
caught (`except … continue`) and leaves the running map untouched; a
successful one folds every hit through `fuseHit`. -/
def fuseVariation (m : List (Nat × RetrievedDocument))
    (results : Except Unit (List SearchHit)) : List (Nat × RetrievedDocument) :=
  match results with
  | .error _ => m
  | .ok hits => hits.foldl fuseHit m

/-- The fused running map `all_results` after all query variations have been
processed, given each variation's search outcome. -/
def fuseResults (variations : List (Except Unit (List SearchHit))) :
    List (Nat × RetrievedDocument) :=
  variations.foldl fuseVariation []

/-- The rank-assignment loop `for i, doc in enumerate(sorted_results):
doc.rank = i + 1`, generalised over the first rank so it can also serve the
reranker's identical loop. -/
def assignRanks (i : Nat) : List RetrievedDocument → List RetrievedDocument
  | [] => []
  | d :: ds => { d with rank := i } :: assignRanks (i + 1) ds

/-- `MultiQueryRetriever.search` after the per-variation searches: resolve
`top_k or settings.RETRIEVAL_TOP_K` (default 10), fuse all variations'
results, sort the fused values descending by score (Python's stable `sorted`
with `reverse=True`), truncate to `top_k`, and assign 1-based ranks. -/
def search (variations : List (Except Unit (List SearchHit)))
    (top_k : Option Nat := none) : List RetrievedDocument :=
  let topK := pyOrNat top_k 10
  let all_results := fuseResults variations
  let sorted_results :=
    ((all_results.map Prod.snd).mergeSort fun a b => decide (b.score ≤ a.score)).take topK
  assignRanks 1 sorted_results

/-- Python's `line.split(sep, 1)`: split at the first occurrence of the
separator only. -/
def splitOnce (s : String) (sep : String) : List String :=
  match s.splitOn sep with
  | [] => [s]
  | x :: rest => if rest = [] then [x] else [x, String.intercalate sep rest]

/-- The per-line parsing step of `generate_query_variations`: a line that is
nonempty and starts with a digit or a list-marker character is split once at
`"."` (falling back to `")"`, then to the whole line); the part after the
marker — or the whole line with leading marker characters stripped — is the
candidate variation.  (The source's marker-character literals are
encoding-damaged; the undamaged characters are the hyphen, bullet and
asterisk.) -/
def parseLine (line : String) : Option String :=
  let line := line.trim
  if line ≠ "" ∧ (line.front.isDigit ∨ line.front ∈ ['-', '•', '*']) then
    let parts :=
      if line.contains '.' then splitOnce line "."
      else if line.contains ')' then splitOnce line ")"
      else [line]
    if 1 < parts.length then some (parts.getD 1 "").trim
    else some ((parts.headD "").trim.dropWhile fun c => c ∈ ['-', '•', ' '])
  else none

/-- The loop body of `generate_query_variations`: append the line's parsed
variation when it is nonempty and differs from the original query. -/
def appendVariation (query : String) (acc : List String) (line : String) : List String :=
  match parseLine line with
  | some variation => if variation ≠ "" ∧ variation ≠ query then acc ++ [variation] else acc
  | none => acc

/-- `MultiQueryRetriever.generate_query_variations`: resolve
`num_variations or settings.QUERY_VARIATIONS` (default 3); on any exception
from the LLM call return `[query]`; otherwise start from `[query]`, append
every parsed line that is nonempty and differs from the original, and truncate
to `num_variations` entries. -/
def generate_query_variations (query : String) (num_variations : Option Nat := none)
    (llm_response : Except Unit String) : List String :=
  let num := pyOrNat num_variations 3
  match llm_response with
  | .error _ => [query]
  | .ok content =>
      let lines := content.trim.splitOn "\n"
      let variations := lines.foldl (appendVariation query) [query]
      variations.take num

end MultiQueryRetriever

/-! ### `app/services/reranker.py` — `RerankerService` -/

namespace RerankerService

/-- The candidate text of `rerank`:
`doc_text = f"{name}"`, then `if description: doc_text += f" {description}"`,
then `if brand: doc_text += f" {brand}"` (Python truthiness on the optional
fields). -/
def docText (doc : RetrievedDocument) : String :=
  let doc_text := doc.product.name
  let doc_text :=
    if truthyStr doc.product.description then doc_text ++ " " ++ doc.product.description.getD ""
    else doc_text
  if truthyStr doc.product.brand then doc_text ++ " " ++ doc.product.brand.getD ""
  else doc_text

/-- `RerankerService.rerank`, value-level: on an empty input return `[]`
without scoring; otherwise resolve `top_k or settings.RERANK_TOP_K`
(default 3), overwrite every document's score with the cross-encoder value for
(query, candidate text) — `cross` abstracts the deterministic
`self.model.predict` —, sort descending by the new scores (stable), truncate
to `top_k`, and assign 1-based ranks. -/
def rerank (cross : String → String → ℚ) (query : String)
    (documents : List RetrievedDocument) (top_k : Option Nat := none) :
    List RetrievedDocument :=
  if documents = [] then []
  else
    let topK := pyOrNat top_k 3
    let scored := documents.map fun doc => { doc with score := cross query (docText doc) }
    let reranked := scored.mergeSort fun a b => decide (b.score ≤ a.score)
    let reranked := reranked.take topK
    MultiQueryRetriever.assignRanks 1 reranked

/-- Overwrite the score of the document at position `i` of the heap (the
in-place `doc.score = float(scores[i])` of the source); out-of-range indices
leave the heap unchanged. -/
def updScore : List RetrievedDocument → Nat → ℚ → List RetrievedDocument
  | [], _, _ => []
  | d :: rest, 0, v => { d with score := v } :: rest
  | d :: rest, i + 1, v => d :: updScore rest i v

/-- Overwrite the rank of the document at position `i` of the heap (the
in-place `doc.rank = i + 1` of the source). -/
def updRank : List RetrievedDocument → Nat → Nat → List RetrievedDocument
  | [], _, _ => []
  | d :: rest, 0, v => { d with rank := v } :: rest
  | d :: rest, i + 1, v => d :: updRank rest i v

/-- The rank-assignment loop of the source acting on the heap through a list
of document references. -/
def rankWrites (heap : List RetrievedDocument) (i : Nat) :
    List Nat → List RetrievedDocument
  | [] => heap
  | r :: rest => rankWrites (updRank heap r i) (i + 1) rest

/-- `RerankerService.rerank` with the aliasing made explicit: the documents
live in a heap (a list of document records) and the caller's `documents` list
is a list of references (positions) into that heap.  The function returns the
heap after the call together with the references the call returns.  Scores are
computed from the pre-call heap (`pairs` is built before any mutation), every
referenced document's score is overwritten in place, the references are sorted
descending by the new scores, truncated to `top_k`, and the surviving
documents' ranks are overwritten in place. -/
def rerankHeap (cross : String → String → ℚ) (query : String)
    (heap : List RetrievedDocument) (documents : List Nat)
    (top_k : Option Nat := none) : List RetrievedDocument × List Nat :=
  if documents = [] then (heap, [])
  else
    let topK := pyOrNat top_k 3
    let scores := documents.map fun r => cross query (docText (heap.getD r default))
    let heap1 := (documents.zip scores).foldl (fun h p => updScore h p.1 p.2) heap
    let reranked := documents.mergeSort fun a b =>
      decide ((heap1.getD b default).score ≤ (heap1.getD a default).score)
    let reranked := reranked.take topK
    (rankWrites heap1 1 reranked, reranked)

end RerankerService

/-! ### `app/chains/rag_chain.py` — `RAGPipeline` -/

namespace RAGPipeline

/-- The nodes of the LangGraph state graph built by `RAGPipeline._build_graph`,
plus the distinguished `END` node. -/
inductive Node where
  | check_cache
  | preprocess
  | detect_intent
  | retrieve
  | rerank
  | generate
  | cache_response
  | endNode
deriving DecidableEq, Repr

/-- The mutable state dictionary threaded through the graph
(`RAGPipeline.run` initialises `query`, `user_id`, `session_id` and
`from_cache`; the stages add the remaining keys). -/
structure PipelineState where
  query : String
  user_id : String := ""
  session_id : Option String := none
  normalized_query : Option String := none
  intent : Option IntentType := none
  slots : Option Slots := none
  retrieved_docs : Option (List RetrievedDocument) := none
  reranked_docs : Option (List RetrievedDocument) := none
  final_response : Option String := none
  from_cache : Bool := false

/-- The collaborators injected into `RAGPipeline.__init__`, abstracted at
their interface boundary: the cache lookup, the preprocessor, the
intent detector's `parse_query (normalized_text, original_text)`, the
retriever's `retrieve (query, intent, slots)`, the reranker's
`rerank (query, documents)` and the generator's
`generate (query, intent, documents)`. -/
structure Env where
  cache_get : String → Option String
  preprocess : String → String
  parse_query : String → String → ParsedQuery
  retrieve : String → Option IntentType → Option Slots → List RetrievedDocument
  rerank : String → List RetrievedDocument → List RetrievedDocument
  generate : String → IntentType → List RetrievedDocument → String

/-- `RAGPipeline.check_cache`: look the query up in the response cache; on a
truthy cached value (`if cached_response:`) set `final_response` and
`from_cache = True`. -/
def check_cache (env : Env) (state : PipelineState) : PipelineState :=
  match env.cache_get state.query with
  | some cached => if cached = "" then state
      else { state with final_response := some cached, from_cache := true }
  | none => state

/-- `RAGPipeline.should_use_cache` (`state.get("from_cache", False)`), as the
condition for routing to `END`; the source returns the edge labels
`"use_cache"` / `"continue"`. -/
def should_use_cache (state : PipelineState) : Bool :=
  state.from_cache

/-- `RAGPipeline.preprocess`: store the normalized query. -/
def preprocessStage (env : Env) (state : PipelineState) : PipelineState :=
  { state with normalized_query := some (env.preprocess state.query) }

/-- `RAGPipeline.detect_intent`: parse the (always previously set) normalized
query and store intent and slots. -/
def detect_intentStage (env : Env) (state : PipelineState) : PipelineState :=
  let parsed := env.parse_query (state.normalized_query.getD "") state.query
  { state with intent := some parsed.intent, slots := some parsed.slots }

/-- `RAGPipeline.should_retrieve`: skip retrieval exactly when the detected
intent is `GREETING`; the source returns the edge labels `"retrieve"` /
`"skip_retrieval"`, modelled as `true` / `false`. -/
def should_retrieve (state : PipelineState) : Bool :=
  state.intent ≠ some IntentType.GREETING

/-- `RAGPipeline.retrieve`: store the retriever's documents. -/
def retrieveStage (env : Env) (state : PipelineState) : PipelineState :=
  let docs := env.retrieve (state.normalized_query.getD "") state.intent state.slots
  { state with retrieved_docs := some docs }

/-- `RAGPipeline.rerank`: rerank the retrieved documents when there are any,
otherwise store `[]`. -/
def rerankStage (env : Env) (state : PipelineState) : PipelineState :=
  let retrieved := state.retrieved_docs.getD []
  if retrieved ≠ [] then
    { state with reranked_docs := some (env.rerank (state.normalized_query.getD "") retrieved) }
  else { state with reranked_docs := some [] }

/-- `RAGPipeline.generate`: store the generated response. -/
def generateStage (env : Env) (state : PipelineState) : PipelineState :=
  let response := env.generate state.query (state.intent.getD .GENERAL) (state.reranked_docs.getD [])
  { state with final_response := some response }

/-- `RAGPipeline.cache_response`: writes the response to the external cache;
the pipeline state itself is returned unchanged. -/
def cache_responseStage (_env : Env) (state : PipelineState) : PipelineState :=
  state

/-- One transition of the compiled state graph: run the current node's stage
on the state and follow the (possibly conditional) outgoing edge. -/
def step (env : Env) : Node → PipelineState → Node × PipelineState
  | .check_cache, s =>
      let s' := check_cache env s
      (if should_use_cache s' then .endNode else .preprocess, s')
  | .preprocess, s => (.detect_intent, preprocessStage env s)
  | .detect_intent, s =>
      let s' := detect_intentStage env s
      (if should_retrieve s' then .retrieve else .generate, s')
  | .retrieve, s => (.rerank, retrieveStage env s)
  | .rerank, s => (.generate, rerankStage env s)
  | .generate, s => (.cache_response, generateStage env s)
  | .cache_response, s => (.endNode, cache_responseStage env s)
  | .endNode, s => (.endNode, s)

/-- Iterate the graph from a node until `END`, recording the nodes whose
stages execute.  The fuel bounds the iteration; the graph is acyclic with
longest path 7, so fuel 8 always reaches `END`. -/
def runFrom : Nat → Node → PipelineState → Env → PipelineState × List Node
  | 0, _, s, _ => (s, [])
  | fuel + 1, node, s, env =>
      if node = .endNode then (s, [])
      else
        let p := step env node s
        let r := runFrom fuel p.1 p.2 env
        (r.1, node :: r.2)

/-- `RAGPipeline.run`: invoke the compiled graph on the initial state
`{"query": query, "user_id": user_id, "session_id": session_id,
"from_cache": False}`, returning the final state and the executed stages. -/
def run (env : Env) (query : String) (user_id : String := "")
    (session_id : Option String := none) : PipelineState × List Node :=
  runFrom 8 .check_cache
    { query := query, user_id := user_id, session_id := session_id, from_cache := false } env

end RAGPipeline

/-! ### Shared helper lemmas -/

lemma pyOrNat_pos (o : Option Nat) {d : Nat} (hd : 0 < d) : 0 < pyOrNat o d := by
  cases o with
  | none => simpa [pyOrNat] using hd
  | some n => cases n with
    | zero => simpa [pyOrNat] using hd
    | succ k => simp [pyOrNat]

lemma foldl_append_body {α β : Type} (f : List α → β → List α)
    (hf : ∀ acc x, f acc x = acc ++ f [] x) :
    ∀ (l : List β) (acc : List α), l.foldl f acc = acc ++ l.foldl f [] := by
  intro l
  induction l with
  | nil => intro acc; simp
  | cons x xs ih =>
      intro acc
      rw [List.foldl_cons, List.foldl_cons, ih (f acc x), ih (f [] x), hf acc x,
        List.append_assoc]

lemma foldl_max_bounds (l : List Nat) :
    ∀ a : Nat, a ≤ l.foldl max a ∧ ∀ x ∈ l, x ≤ l.foldl max a := by
  induction l with
  | nil => intro a; simp
  | cons w ws ih =>
      intro a
      refine ⟨le_trans (le_max_left a w) (ih (max a w)).1, ?_⟩
      intro x hx
      rcases List.mem_cons.1 hx with rfl | hx
      · exact le_trans (le_max_right a x) (by simpa using (ih (max a x)).1)
      · simpa using (ih (max a w)).2 x hx

lemma foldl_max_mem (l : List Nat) : ∀ a : Nat, l.foldl max a ∈ a :: l := by
  induction l with
  | nil => intro a; simp
  | cons w ws ih =>
      intro a
      have h := ih (max a w)
      rcases List.mem_cons.1 h with he | hm
      · rcases max_choice a w with hc | hc <;> simp_all
      · simp [List.mem_cons.2 (Or.inr (List.mem_cons.2 (Or.inr hm)))]

lemma foldl_min_bounds (l : List Nat) :
    ∀ a : Nat, l.foldl min a ≤ a ∧ ∀ x ∈ l, l.foldl min a ≤ x := by
  induction l with
  | nil => intro a; simp
  | cons w ws ih =>
      intro a
      refine ⟨le_trans (ih (min a w)).1 (min_le_left a w), ?_⟩
      intro x hx
      rcases List.mem_cons.1 hx with rfl | hx
      · exact le_trans (by simpa using (ih (min a x)).1) (min_le_right a x)
      · simpa using (ih (min a w)).2 x hx

lemma foldl_min_mem (l : List Nat) : ∀ a : Nat, l.foldl min a ∈ a :: l := by
  induction l with
  | nil => intro a; simp
  | cons w ws ih =>
      intro a
      have h := ih (min a w)
      rcases List.mem_cons.1 h with he | hm
      · rcases min_choice a w with hc | hc <;> simp_all
      · simp [List.mem_cons.2 (Or.inr (List.mem_cons.2 (Or.inr hm)))]

lemma pyListMax_mem_le {l : List Nat} : ∀ x ∈ l, x ≤ pyListMax l := by
  cases l with
  | nil => intro x hx; cases hx
  | cons v vs =>
      intro x hx
      rcases List.mem_cons.1 hx with rfl | hx
      · exact (foldl_max_bounds vs x).1
      · exact (foldl_max_bounds vs v).2 x hx

lemma pyListMax_mem {l : List Nat} (h : l ≠ []) : pyListMax l ∈ l := by
  cases l with
  | nil => exact absurd rfl h
  | cons v vs => simpa [pyListMax] using foldl_max_mem vs v

lemma pyListMin_le_mem {l : List Nat} : ∀ x ∈ l, pyListMin l ≤ x := by
  cases l with
  | nil => intro x hx; cases hx
  | cons v vs =>
      intro x hx
      rcases List.mem_cons.1 hx with rfl | hx
      · exact (foldl_min_bounds vs x).1
      · exact (foldl_min_bounds vs v).2 x hx

lemma pyListMin_mem {l : List Nat} (h : l ≠ []) : pyListMin l ∈ l := by
  cases l with
  | nil => exact absurd rfl h
  | cons v vs => simpa [pyListMin] using foldl_min_mem vs v

lemma appendVariation_append (query : String) :
    ∀ acc line, MultiQueryRetriever.appendVariation query acc line =
      acc ++ MultiQueryRetriever.appendVariation query [] line := by
  intro acc line
  unfold MultiQueryRetriever.appendVariation
  cases MultiQueryRetriever.parseLine line with
  | none => simp
  | some v =>
      by_cases h : v ≠ "" ∧ v ≠ query <;> simp [h]

lemma generate_foldl_cons (query : String) (lines : List String) :
    ∃ rest, lines.foldl (MultiQueryRetriever.appendVariation query) [query] = query :: rest := by
  refine ⟨lines.foldl (MultiQueryRetriever.appendVariation query) [], ?_⟩
  simpa using foldl_append_body _ (appendVariation_append query) lines [query]

lemma pyListMin_perm {l l' : List Nat} (h : l.Perm l') (hl : l ≠ []) :
    pyListMin l = pyListMin l' := by
  have hl' : l' ≠ [] := by
    intro e
    exact hl (List.Perm.eq_nil (e ▸ h))
  exact le_antisymm (pyListMin_le_mem _ (h.mem_iff.2 (pyListMin_mem hl')))
    (pyListMin_le_mem _ (h.mem_iff.1 (pyListMin_mem hl)))

lemma pyListMax_perm {l l' : List Nat} (h : l.Perm l') (hl : l ≠ []) :
    pyListMax l = pyListMax l' := by
  have hl' : l' ≠ [] := by
    intro e
    exact hl (List.Perm.eq_nil (e ▸ h))
  exact le_antisymm (pyListMax_mem_le _ (h.mem_iff.1 (pyListMax_mem hl)))
    (pyListMax_mem_le _ (h.mem_iff.2 (pyListMax_mem hl')))

lemma pyListMax_eq_zero {l : List Nat} (h : ∀ x ∈ l, x = 0) : pyListMax l = 0 := by
  cases hl : l with
  | nil => rfl
  | cons v vs => exact h _ (hl ▸ pyListMax_mem (by simp [hl]))

/-! ### Claims C1 and C4 — retrieval fusion -/

namespace MultiQueryRetriever

/-- The hits of the variations whose searches succeeded, in processing
order. -/
def successHits (v : Except Unit (List SearchHit)) : List SearchHit :=
  match v with
  | .ok hits => hits
  | .error _ => []

/-- All scores observed for a given product id across a list of hits. -/
def scoresFor (hits : List SearchHit) (id : Nat) : List ℚ :=
  hits.filterMap fun h => if h.id = id then some h.score else none

lemma lookupA_none_iff (k : Nat) (m : List (Nat × RetrievedDocument)) :
    lookupA k m = none ↔ k ∉ m.map Prod.fst := by
  induction m with
  | nil => simp [lookupA]
  | cons p rest ih =>
      by_cases h : p.1 = k
      · simp [lookupA, h]
      · have h' : ¬ k = p.1 := fun e => h e.symm
        simp [lookupA, h, h', ih]

lemma updateA_fst (k : Nat) (v : RetrievedDocument) (m : List (Nat × RetrievedDocument)) :
    (updateA k v m).map Prod.fst = m.map Prod.fst := by
  induction m with
  | nil => rfl
  | cons p rest ih =>
      by_cases h : p.1 = k <;> simp [updateA, h, ih]

lemma lookupA_append (j : Nat) (m m' : List (Nat × RetrievedDocument)) :
    lookupA j (m ++ m') = (lookupA j m).or (lookupA j m') := by
  induction m with
  | nil => simp [lookupA]
  | cons p rest ih =>
      by_cases h : p.1 = j <;> simp [lookupA, h, ih]

lemma lookupA_updateA_self (k : Nat) (v : RetrievedDocument)
    (m : List (Nat × RetrievedDocument)) (h : (lookupA k m).isSome) :
    lookupA k (updateA k v m) = some v := by
  induction m with
  | nil => simp [lookupA] at h
  | cons p rest ih =>
      by_cases hp : p.1 = k
      · simp [updateA, hp, lookupA]
      · simp [lookupA, hp] at h
        simp [updateA, hp, lookupA, ih h]

lemma lookupA_updateA_other (j k : Nat) (v : RetrievedDocument)
    (m : List (Nat × RetrievedDocument)) (h : j ≠ k) :
    lookupA j (updateA k v m) = lookupA j m := by
  induction m with
  | nil => rfl
  | cons p rest ih =>
      by_cases hp : p.1 = k
      · subst hp
        simp [updateA, lookupA, Ne.symm h, h]
      · by_cases hj : p.1 = j <;> simp [updateA, lookupA, hp, hj, h, ih]

/-- Pointwise characterization of one fusion step. -/
lemma lookupA_fuseHit (m : List (Nat × RetrievedDocument)) (h : SearchHit) (j : Nat) :
    lookupA j (fuseHit m h) =
      if j = h.id then
        match lookupA h.id m with
        | none => some { product := h.payload, score := h.score }
        | some stored =>
            if stored.score < h.score then some { product := h.payload, score := h.score }
            else some stored
      else lookupA j m := by
  cases hm : lookupA h.id m with
  | none =>
      simp only [fuseHit, hm]
      rw [lookupA_append]
      by_cases hj : j = h.id
      · subst hj
        simp [hm, lookupA]
      · have hj' : ¬ h.id = j := fun e => hj e.symm
        simp only [if_neg hj, lookupA, hj']
        cases lookupA j m <;> simp
  | some stored =>
      simp only [fuseHit, hm]
      by_cases hs : stored.score < h.score
      · rw [if_pos hs, if_pos hs]
        by_cases hj : j = h.id
        · subst hj
          rw [if_pos rfl]
          exact lookupA_updateA_self _ _ _ (by simp [hm])
        · rw [if_neg hj]
          exact lookupA_updateA_other _ _ _ _ hj
      · rw [if_neg hs, if_neg hs]
        by_cases hj : j = h.id
        · subst hj
          simp [hm]
        · simp [hj]

lemma fuseHit_fst_nodup (m : List (Nat × RetrievedDocument)) (h : SearchHit)
    (hm : (m.map Prod.fst).Nodup) : ((fuseHit m h).map Prod.fst).Nodup := by
  cases hl : lookupA h.id m with
  | none =>
      have hnot : h.id ∉ m.map Prod.fst := (lookupA_none_iff h.id m).1 hl
      simp only [fuseHit, hl]
      simp [List.nodup_append, hm, hnot]
  | some stored =>
      simp only [fuseHit, hl]
      by_cases hs : stored.score < h.score <;> simp [hs, updateA_fst, hm]

/-- The fold invariant for the fusion of one hit list into a running map:
keys stay duplicate-free, and the stored score of every key is attained and
maximal among the previously stored score and the hits' scores for that
key. -/
lemma fuseFold_invariant (hits : List SearchHit) :
    ∀ m : List (Nat × RetrievedDocument),
      ((m.map Prod.fst).Nodup → (((hits.foldl fuseHit m).map Prod.fst).Nodup)) ∧
      ∀ id d, lookupA id (hits.foldl fuseHit m) = some d →
        (d.score ∈ scoresFor hits id ∨ ∃ d0, lookupA id m = some d0 ∧ d.score = d0.score) ∧
        (∀ s ∈ scoresFor hits id, s ≤ d.score) ∧
        (∀ d0, lookupA id m = some d0 → d0.score ≤ d.score) := by
  induction hits with
  | nil =>
      intro m
      refine ⟨fun h => by simpa using h, ?_⟩
      intro id d hd
      simp only [List.foldl_nil] at hd
      refine ⟨Or.inr ⟨d, hd, rfl⟩, by simp [scoresFor], ?_⟩
      intro d0 hd0
      rw [hd] at hd0
      obtain rfl := Option.some.inj hd0
      exact le_rfl
  | cons h rest ih =>
      intro m
      rw [List.foldl_cons]
      refine ⟨fun hnd => (ih (fuseHit m h)).1 (fuseHit_fst_nodup m h hnd), ?_⟩
      intro id d hd
      obtain ⟨hattain, hmaxrest, hmono⟩ := (ih (fuseHit m h)).2 id d hd
      have hstep := lookupA_fuseHit m h id
      by_cases hj : id = h.id
      · subst hj
        have hcons : scoresFor (h :: rest) h.id = h.score :: scoresFor rest h.id := by
          simp [scoresFor]
        rw [if_pos rfl] at hstep
        cases hm : lookupA h.id m with
        | none =>
            simp only [hm] at hstep
            refine ⟨?_, ?_, ?_⟩
            · rcases hattain with ha | ⟨d0, hd0, hd0e⟩
              · rw [hcons]
                exact Or.inl (List.mem_cons.2 (Or.inr ha))
              · rw [hstep] at hd0
                obtain rfl := Option.some.inj hd0
                rw [hcons]
                exact Or.inl (List.mem_cons.2 (Or.inl hd0e))
            · intro s hs
              rw [hcons] at hs
              rcases List.mem_cons.1 hs with rfl | hs
              · exact hmono _ hstep
              · exact hmaxrest s hs
            · intro d0 hd0
              cases hd0
        | some stored =>
            simp only [hm] at hstep
            by_cases hlt : stored.score < h.score
            · rw [if_pos hlt] at hstep
              refine ⟨?_, ?_, ?_⟩
              · rcases hattain with ha | ⟨d0, hd0, hd0e⟩
                · rw [hcons]
                  exact Or.inl (List.mem_cons.2 (Or.inr ha))
                · rw [hstep] at hd0
                  obtain rfl := Option.some.inj hd0
                  rw [hcons]
                  exact Or.inl (List.mem_cons.2 (Or.inl hd0e))
              · intro s hs
                rw [hcons] at hs
                rcases List.mem_cons.1 hs with rfl | hs
                · exact hmono _ hstep
                · exact hmaxrest s hs
              · intro d0 hd0
                obtain rfl := Option.some.inj hd0
                exact le_trans (le_of_lt hlt) (hmono _ hstep)
            · rw [if_neg hlt] at hstep
              refine ⟨?_, ?_, ?_⟩
              · rcases hattain with ha | ⟨d0, hd0, hd0e⟩
                · rw [hcons]
                  exact Or.inl (List.mem_cons.2 (Or.inr ha))
                · rw [hstep] at hd0
                  obtain rfl := Option.some.inj hd0
                  exact Or.inr ⟨stored, rfl, hd0e⟩
              · intro s hs
                rw [hcons] at hs
                rcases List.mem_cons.1 hs with rfl | hs
                · exact le_trans (le_of_not_lt hlt) (hmono _ hstep)
                · exact hmaxrest s hs
              · intro d0 hd0
                obtain rfl := Option.some.inj hd0
                exact hmono _ hstep
      · have hji : ¬ h.id = id := fun e => hj e.symm
        have hcons : scoresFor (h :: rest) id = scoresFor rest id := by
          simp [scoresFor, hji]
        rw [if_neg hj] at hstep
        refine ⟨?_, ?_, ?_⟩
        · rcases hattain with ha | ⟨d0, hd0, hd0e⟩
          · rw [hcons]
            exact Or.inl ha
          · rw [hstep] at hd0
            exact Or.inr ⟨d0, hd0, hd0e⟩
        · intro s hs
          rw [hcons] at hs
          exact hmaxrest s hs
        · intro d0 hd0
          exact hmono d0 (by rw [hstep]; exact hd0)

lemma fuseVariation_eq (m : List (Nat × RetrievedDocument))
    (v : Except Unit (List SearchHit)) :
    fuseVariation m v = (successHits v).foldl fuseHit m := by
  cases v <;> rfl

lemma fuseResults_eq_flatten (variations : List (Except Unit (List SearchHit))) :
    fuseResults variations =
      ((variations.map successHits).flatten).foldl fuseHit [] := by
  rw [fuseResults, List.foldl_flatten, List.foldl_map]
  congr 1
  funext m v
  exact fuseVariation_eq m v

lemma assignRanks_length : ∀ (i : Nat) (l : List RetrievedDocument),
    (assignRanks i l).length = l.length := by
  intro i l
  induction l generalizing i with
  | nil => rfl
  | cons d ds ih => simp [assignRanks, ih]

lemma assignRanks_map_score : ∀ (i : Nat) (l : List RetrievedDocument),
    (assignRanks i l).map RetrievedDocument.score = l.map RetrievedDocument.score := by
  intro i l
  induction l generalizing i with
  | nil => rfl
  | cons d ds ih => simp [assignRanks, ih]

lemma assignRanks_map_rank : ∀ (i : Nat) (l : List RetrievedDocument),
    (assignRanks i l).map RetrievedDocument.rank = List.range' i l.length := by
  intro i l
  induction l generalizing i with
  | nil => rfl
  | cons d ds ih => simp [assignRanks, ih, List.range'_succ]

/-- Transfer of descending-score sortedness through rank assignment. -/
lemma assignRanks_pairwise_score {l : List RetrievedDocument} {i : Nat}
    (h : l.Pairwise fun a b => b.score ≤ a.score) :
    (assignRanks i l).Pairwise fun a b => b.score ≤ a.score := by
  have h1 : (l.map RetrievedDocument.score).Pairwise (fun a b => b ≤ a) :=
    List.pairwise_map.2 h
  rw [← assignRanks_map_score i] at h1
  exact List.pairwise_map.1 h1

end MultiQueryRetriever

/-- C1: the fused result map of `MultiQueryRetriever.search` holds at most one
entry per product id (its keys are duplicate-free), and the score stored for
an id is attained among, and maximal over, all scores observed for that id
across all successful variations' hits. -/
theorem claim_C1_fusion_dedup_max (variations : List (Except Unit (List MultiQueryRetriever.SearchHit))) :
    ((MultiQueryRetriever.fuseResults variations).map Prod.fst).Nodup ∧
    ∀ id d,
      MultiQueryRetriever.lookupA id (MultiQueryRetriever.fuseResults variations) = some d →
      d.score ∈ MultiQueryRetriever.scoresFor
        ((variations.map MultiQueryRetriever.successHits).flatten) id ∧
      ∀ s ∈ MultiQueryRetriever.scoresFor
        ((variations.map MultiQueryRetriever.successHits).flatten) id, s ≤ d.score := by
  have hinv := MultiQueryRetriever.fuseFold_invariant
    ((variations.map MultiQueryRetriever.successHits).flatten) []
  constructor
  · rw [MultiQueryRetriever.fuseResults_eq_flatten]
    exact hinv.1 (by simp)
  · intro id d hd
    rw [MultiQueryRetriever.fuseResults_eq_flatten] at hd
    obtain ⟨hattain, hmax, _⟩ := hinv.2 id d hd
    refine ⟨?_, hmax⟩
    rcases hattain with ha | ⟨d0, hd0, _⟩
    · exact ha
    · simp [MultiQueryRetriever.lookupA] at hd0

/-- Witness for C1 at the spec's fusion example: two variations return the
same product id with scores 0.7 and 0.9; the fused map holds a single entry
for it carrying score 0.9. -/
theorem claim_C1_fusion_dedup_max_witness :
    MultiQueryRetriever.lookupA 1 (MultiQueryRetriever.fuseResults
        [.ok [⟨1, 7/10, { id := 1, name := "P" }⟩],
         .ok [⟨1, 9/10, { id := 1, name := "P" }⟩]]) =
      some { product := { id := 1, name := "P" }, score := 9/10 } ∧
    ((MultiQueryRetriever.fuseResults
        [.ok [⟨1, 7/10, { id := 1, name := "P" }⟩],
         .ok [⟨1, 9/10, { id := 1, name := "P" }⟩]]).map Prod.fst).Nodup ∧
    ((9 : ℚ)/10 ∈ MultiQueryRetriever.scoresFor
        (([.ok [⟨1, 7/10, { id := 1, name := "P" }⟩],
           .ok [⟨1, 9/10, { id := 1, name := "P" }⟩]].map
            MultiQueryRetriever.successHits).flatten) 1 ∧
      ∀ s ∈ MultiQueryRetriever.scoresFor
        (([.ok [⟨1, 7/10, { id := 1, name := "P" }⟩],
           .ok [⟨1, 9/10, { id := 1, name := "P" }⟩]].map
            MultiQueryRetriever.successHits).flatten) 1, s ≤ (9 : ℚ)/10) := by
  refine ⟨?_, (claim_C1_fusion_dedup_max _).1, ?_⟩
  · norm_num [MultiQueryRetriever.fuseResults, MultiQueryRetriever.fuseVariation,
      MultiQueryRetriever.fuseHit, MultiQueryRetriever.lookupA, MultiQueryRetriever.updateA]
  · exact (claim_C1_fusion_dedup_max
      [.ok [⟨1, 7/10, { id := 1, name := "P" }⟩],
       .ok [⟨1, 9/10, { id := 1, name := "P" }⟩]]).2 1
      { product := { id := 1, name := "P" }, score := 9/10 }
      (by norm_num [MultiQueryRetriever.fuseResults, MultiQueryRetriever.fuseVariation,
        MultiQueryRetriever.fuseHit, MultiQueryRetriever.lookupA,
        MultiQueryRetriever.updateA])

/-- C4: the list returned by `MultiQueryRetriever.search` never exceeds the
resolved `top_k`, is sorted descending by score, and its rank fields are the
contiguous sequence `1, 2, …, length` in that order. -/
theorem claim_C4_search_output (variations : List (Except Unit (List MultiQueryRetriever.SearchHit)))
    (top_k : Option Nat) :
    (MultiQueryRetriever.search variations top_k).length ≤ pyOrNat top_k 10 ∧
    (MultiQueryRetriever.search variations top_k).Pairwise
      (fun a b => b.score ≤ a.score) ∧
    (MultiQueryRetriever.search variations top_k).map RetrievedDocument.rank =
      List.range' 1 (MultiQueryRetriever.search variations top_k).length := by
  have hs : MultiQueryRetriever.search variations top_k =
      MultiQueryRetriever.assignRanks 1
        ((((MultiQueryRetriever.fuseResults variations).map Prod.snd).mergeSort
          fun a b => decide (b.score ≤ a.score)).take (pyOrNat top_k 10)) := rfl
  refine ⟨?_, ?_, ?_⟩
  · rw [hs, MultiQueryRetriever.assignRanks_length]
    exact List.length_take_le _ _
  · rw [hs]
    apply MultiQueryRetriever.assignRanks_pairwise_score
    have hsorted := @List.sorted_mergeSort _
      (fun a b : RetrievedDocument => decide (b.score ≤ a.score))
      (fun a b c hab hbc => by
        simp only [decide_eq_true_eq] at hab hbc ⊢
        exact le_trans hbc hab)
      (fun a b => by
        simp only [Bool.or_eq_true, decide_eq_true_eq]
        exact le_total b.score a.score)
      ((MultiQueryRetriever.fuseResults variations).map Prod.snd)
    have htake := hsorted.sublist (List.take_sublist (pyOrNat top_k 10) _)
    exact htake.imp fun h => of_decide_eq_true h
  · rw [hs, MultiQueryRetriever.assignRanks_map_rank,
      MultiQueryRetriever.assignRanks_length]

/-! ### Claim C9 — rerank idempotence -/

namespace RerankerService

lemma docText_product_congr {d d' : RetrievedDocument} (h : d.product = d'.product) :
    docText d = docText d' := by
  unfold docText
  rw [h]

lemma score_update_eq {d : RetrievedDocument} {v : ℚ} (h : d.score = v) :
    { d with score := v } = d := by
  cases d
  simp_all

lemma map_score_update_eq {cross : String → String → ℚ} {query : String}
    {docs : List RetrievedDocument}
    (h : ∀ d ∈ docs, d.score = cross query (docText d)) :
    (docs.map fun doc => { doc with score := cross query (docText doc) }) = docs := by
  induction docs with
  | nil => rfl
  | cons d ds ih =>
      rw [List.map_cons, score_update_eq (h d (List.mem_cons_self d ds)),
        ih fun x hx => h x (List.mem_cons.2 (Or.inr hx))]

lemma mem_assignRanks {d : RetrievedDocument} :
    ∀ {i : Nat} {l : List RetrievedDocument}, d ∈ MultiQueryRetriever.assignRanks i l →
      ∃ d0 ∈ l, d.product = d0.product ∧ d.score = d0.score := by
  intro i l
  induction l generalizing i with
  | nil => intro h; cases h
  | cons x xs ih =>
      intro h
      rcases List.mem_cons.1 h with rfl | h
      · exact ⟨x, List.mem_cons_self x xs, rfl, rfl⟩
      · obtain ⟨d0, hd0, hp, hs⟩ := ih h
        exact ⟨d0, List.mem_cons.2 (Or.inr hd0), hp, hs⟩

lemma assignRanks_idem (l : List RetrievedDocument) :
    ∀ i, MultiQueryRetriever.assignRanks i (MultiQueryRetriever.assignRanks i l) =
      MultiQueryRetriever.assignRanks i l := by
  induction l with
  | nil => intro i; rfl
  | cons d ds ih => intro i; simp [MultiQueryRetriever.assignRanks, ih]

end RerankerService

/-- C9: on a candidate list that is already sorted descending by the
deterministic cross-encoder score and no longer than the resolved `top_k`,
`RerankerService.rerank` is idempotent: a second application to its own output
returns the same documents in the same order with the same scores and
ranks. -/
theorem claim_C9_rerank_idempotent (cross : String → String → ℚ) (query : String)
    (documents : List RetrievedDocument) (top_k : Option Nat)
    (hsort : documents.Pairwise fun a b =>
      cross query (RerankerService.docText b) ≤ cross query (RerankerService.docText a))
    (hlen : documents.length ≤ pyOrNat top_k 3) :
    RerankerService.rerank cross query
        (RerankerService.rerank cross query documents top_k) top_k =
      RerankerService.rerank cross query documents top_k := by
  by_cases hnil : documents = []
  · subst hnil
    simp [RerankerService.rerank]
  · have hscored_sorted :
        (documents.map fun doc => { doc with score := cross query (RerankerService.docText doc) }).Pairwise
          (fun a b : RetrievedDocument => decide (b.score ≤ a.score) = true) := by
      refine List.pairwise_map.2 (hsort.imp ?_)
      intro a b h
      exact decide_eq_true h
    have hlen' :
        (documents.map fun doc => { doc with score := cross query (RerankerService.docText doc) }).length ≤
          pyOrNat top_k 3 := by
      simpa using hlen
    have hr1 : RerankerService.rerank cross query documents top_k =
        MultiQueryRetriever.assignRanks 1
          (documents.map fun doc => { doc with score := cross query (RerankerService.docText doc) }) := by
      simp only [RerankerService.rerank, if_neg hnil]
      rw [List.mergeSort_of_sorted hscored_sorted, List.take_of_length_le hlen']
    set scored := documents.map fun doc =>
      { doc with score := cross query (RerankerService.docText doc) } with hscored
    have hmem_r1 : ∀ d ∈ MultiQueryRetriever.assignRanks 1 scored,
        d.score = cross query (RerankerService.docText d) := by
      intro d hd
      obtain ⟨d0, hd0, hp, hs⟩ := RerankerService.mem_assignRanks hd
      obtain ⟨x, _, rfl⟩ := List.mem_map.1 hd0
      rw [hs, RerankerService.docText_product_congr hp]
      rfl
    have hr1_ne : MultiQueryRetriever.assignRanks 1 scored ≠ [] := by
      intro h
      have := congrArg List.length h
      rw [MultiQueryRetriever.assignRanks_length] at this
      simp only [hscored, List.length_map, List.length_nil] at this
      exact hnil (List.length_eq_zero.1 this)
    have hupd : ((MultiQueryRetriever.assignRanks 1 scored).map fun doc =>
        { doc with score := cross query (RerankerService.docText doc) }) =
        MultiQueryRetriever.assignRanks 1 scored :=
      RerankerService.map_score_update_eq hmem_r1
    have hr1_sorted : (MultiQueryRetriever.assignRanks 1 scored).Pairwise
        (fun a b : RetrievedDocument => decide (b.score ≤ a.score) = true) :=
      (MultiQueryRetriever.assignRanks_pairwise_score
        (hscored_sorted.imp fun h => of_decide_eq_true h)).imp fun h => decide_eq_true h
    have hr1_len : (MultiQueryRetriever.assignRanks 1 scored).length ≤ pyOrNat top_k 3 := by
      rw [MultiQueryRetriever.assignRanks_length]
      exact hlen'
    rw [hr1]
    simp only [RerankerService.rerank, if_neg hr1_ne]
    rw [hupd, List.mergeSort_of_sorted hr1_sorted, List.take_of_length_le hr1_len,
      RerankerService.assignRanks_idem]

/-- Witness for C9: a single already-sorted candidate under a constant
cross-encoder. -/
theorem claim_C9_rerank_idempotent_witness :
    ([({ product := { id := 1, name := "A" }, score := 5, rank := 0 } :
        RetrievedDocument)].Pairwise fun a b =>
      (fun _ _ => (1 : ℚ)) "q" (RerankerService.docText b) ≤
        (fun _ _ => (1 : ℚ)) "q" (RerankerService.docText a)) ∧
    ([({ product := { id := 1, name := "A" }, score := 5, rank := 0 } :
        RetrievedDocument)].length ≤ pyOrNat none 3) ∧
    RerankerService.rerank (fun _ _ => (1 : ℚ)) "q"
        (RerankerService.rerank (fun _ _ => (1 : ℚ)) "q"
          [{ product := { id := 1, name := "A" }, score := 5, rank := 0 }] none) none =
      RerankerService.rerank (fun _ _ => (1 : ℚ)) "q"
        [{ product := { id := 1, name := "A" }, score := 5, rank := 0 }] none := by
  refine ⟨List.pairwise_singleton _ _, by simp [pyOrNat], ?_⟩
  exact claim_C9_rerank_idempotent (fun _ _ => (1 : ℚ)) "q"
    [{ product := { id := 1, name := "A" }, score := 5, rank := 0 }] none
    (List.pairwise_singleton _ _) (by simp [pyOrNat])

/-! ### Claim C10 — in-place mutation of the reranker's input -/

namespace RerankerService

lemma updScore_getElem? (h : List RetrievedDocument) :
    ∀ (r : Nat) (v : ℚ) (j : Nat),
      (updScore h r v)[j]? =
        if j = r then (h[j]?).map (fun d => { d with score := v }) else h[j]? := by
  induction h with
  | nil =>
      intro r v j
      simp [updScore]
  | cons d rest ih =>
      intro r v j
      cases r with
      | zero =>
          cases j with
          | zero => simp [updScore]
          | succ k => simp [updScore]
      | succ r' =>
          cases j with
          | zero => simp [updScore]
          | succ k => simpa [updScore] using ih r' v k

lemma updRank_getElem? (h : List RetrievedDocument) :
    ∀ (r : Nat) (v : Nat) (j : Nat),
      (updRank h r v)[j]? =
        if j = r then (h[j]?).map (fun d => { d with rank := v }) else h[j]? := by
  induction h with
  | nil =>
      intro r v j
      simp [updRank]
  | cons d rest ih =>
      intro r v j
      cases r with
      | zero =>
          cases j with
          | zero => simp [updRank]
          | succ k => simp [updRank]
      | succ r' =>
          cases j with
          | zero => simp [updRank]
          | succ k => simpa [updRank] using ih r' v k

/-- A fold of score writes at indices outside `i` leaves position `i`
unchanged. -/
lemma scoreWrites_getElem?_of_not_mem (f : Nat → ℚ) :
    ∀ (ks : List Nat) (h : List RetrievedDocument) (i : Nat), i ∉ ks →
      (ks.foldl (fun h r => updScore h r (f r)) h)[i]? = h[i]? := by
  intro ks
  induction ks with
  | nil => intro h i _; rfl
  | cons r ks' ih =>
      intro h i hi
      rw [List.foldl_cons, ih _ i (fun hmem => hi (List.mem_cons.2 (Or.inr hmem))),
        updScore_getElem?, if_neg (fun e => hi (List.mem_cons.2 (Or.inl e)))]

/-- After the fold of score writes, every written position carries the written
score (computed by the fixed function `f`) over its original document. -/
lemma scoreWrites_getElem?_of_mem (f : Nat → ℚ) :
    ∀ (ks : List Nat) (h : List RetrievedDocument) (i : Nat), i ∈ ks →
      (ks.foldl (fun h r => updScore h r (f r)) h)[i]? =
        (h[i]?).map (fun d => { d with score := f i }) := by
  intro ks
  induction ks with
  | nil => intro h i hi; cases hi
  | cons r ks' ih =>
      intro h i hi
      rw [List.foldl_cons]
      by_cases hmem : i ∈ ks'
      · rw [ih _ i hmem, updScore_getElem?]
        by_cases hir : i = r
        · subst hir
          rw [if_pos rfl, Option.map_map]
          rfl
        · rw [if_neg hir]
      · have hir : i = r := by
          rcases List.mem_cons.1 hi with he | he
          · exact he
          · exact absurd he hmem
        subst hir
        rw [scoreWrites_getElem?_of_not_mem f ks' _ i hmem, updScore_getElem?, if_pos rfl]

lemma rankWrites_getElem?_score (ks : List Nat) :
    ∀ (h : List RetrievedDocument) (i0 j : Nat),
      ((rankWrites h i0 ks)[j]?).map RetrievedDocument.score =
        (h[j]?).map RetrievedDocument.score := by
  induction ks with
  | nil => intro h i0 j; rfl
  | cons r ks' ih =>
      intro h i0 j
      rw [rankWrites, ih, updRank_getElem?]
      by_cases hjr : j = r
      · subst hjr
        rw [if_pos rfl, Option.map_map]
        rfl
      · rw [if_neg hjr]

lemma rankWrites_getElem?_product (ks : List Nat) :
    ∀ (h : List RetrievedDocument) (i0 j : Nat),
      ((rankWrites h i0 ks)[j]?).map RetrievedDocument.product =
        (h[j]?).map RetrievedDocument.product := by
  induction ks with
  | nil => intro h i0 j; rfl
  | cons r ks' ih =>
      intro h i0 j
      rw [rankWrites, ih, updRank_getElem?]
      by_cases hjr : j = r
      · subst hjr
        rw [if_pos rfl, Option.map_map]
        rfl
      · rw [if_neg hjr]

lemma zip_map_self {α β : Type} (f : α → β) :
    ∀ l : List α, l.zip (l.map f) = l.map fun a => (a, f a)
  | [] => rfl
  | a :: l => by simp only [List.map_cons, List.zip_cons_cons, zip_map_self]

/-- The source computes the score list first and then walks the document list
with positional indices; the paired fold equals the direct fold. -/
lemma zipScoreFold_eq (f : Nat → ℚ) (ks : List Nat) (h : List RetrievedDocument) :
    (ks.zip (ks.map f)).foldl (fun h p => updScore h p.1 p.2) h =
      ks.foldl (fun h r => updScore h r (f r)) h := by
  rw [zip_map_self, List.foldl_map]

end RerankerService

/-- C10: `RerankerService.rerank` mutates its input in place — after a call on
a non-empty reference list, every referenced document on the heap (including
references cut off by the `top_k` truncation and absent from the returned
reference list) carries the cross-encoder score in place of its original
vector-similarity score, while its product payload is untouched. -/
theorem claim_C10_rerank_mutates_input (cross : String → String → ℚ) (query : String)
    (heap : List RetrievedDocument) (documents : List Nat) (top_k : Option Nat)
    (i : Nat) (hi : i ∈ documents) (hlen : i < heap.length) :
    ∃ d, ((RerankerService.rerankHeap cross query heap documents top_k).1)[i]? = some d ∧
      d.score = cross query (RerankerService.docText (heap.getD i default)) ∧
      d.product = (heap.getD i default).product := by
  have hnil : documents ≠ [] := fun e => by
    rw [e] at hi
    cases hi
  have hheap : heap[i]? = some (heap.getD i default) := by
    rw [List.getElem?_eq_getElem hlen, List.getD_eq_getElem?_getD,
      List.getElem?_eq_getElem hlen]
    rfl
  have hscore := RerankerService.scoreWrites_getElem?_of_mem
    (fun r => cross query (RerankerService.docText (heap.getD r default))) documents heap i hi
  have h1 : (((RerankerService.rerankHeap cross query heap documents top_k).1)[i]?).map
      RetrievedDocument.score =
      some (cross query (RerankerService.docText (heap.getD i default))) := by
    simp only [RerankerService.rerankHeap, if_neg hnil]
    rw [RerankerService.rankWrites_getElem?_score, RerankerService.zipScoreFold_eq,
      hscore, hheap]
    rfl
  have h2 : (((RerankerService.rerankHeap cross query heap documents top_k).1)[i]?).map
      RetrievedDocument.product = some ((heap.getD i default).product) := by
    simp only [RerankerService.rerankHeap, if_neg hnil]
    rw [RerankerService.rankWrites_getElem?_product, RerankerService.zipScoreFold_eq,
      hscore, hheap]
    rfl
  obtain ⟨d, hd, hds⟩ := Option.map_eq_some'.1 h1
  refine ⟨d, hd, hds, ?_⟩
  rw [hd] at h2
  exact Option.some.inj h2

/-- Witness for C10: two documents, `top_k = 1`; the document at position 1 is
dropped from the returned references yet its heap entry's score is overwritten
with the cross-encoder value (here the candidate text's length). -/
theorem claim_C10_rerank_mutates_input_witness :
    (1 ∈ [0, 1] ∧ 1 < ([{ product := { id := 7, name := "A" }, score := 5, rank := 0 },
        { product := { id := 8, name := "BB" }, score := 6, rank := 0 }] :
        List RetrievedDocument).length) ∧
    ∃ d, ((RerankerService.rerankHeap (fun _ t => (t.length : ℚ)) "q"
        [{ product := { id := 7, name := "A" }, score := 5, rank := 0 },
         { product := { id := 8, name := "BB" }, score := 6, rank := 0 }]
        [0, 1] (some 1)).1)[1]? = some d ∧
      d.score = (fun _ t => (t.length : ℚ)) "q" (RerankerService.docText
        (([{ product := { id := 7, name := "A" }, score := 5, rank := 0 },
           { product := { id := 8, name := "BB" }, score := 6, rank := 0 }] :
           List RetrievedDocument).getD 1 default)) ∧
      d.product = (([{ product := { id := 7, name := "A" }, score := 5, rank := 0 },
           { product := { id := 8, name := "BB" }, score := 6, rank := 0 }] :
           List RetrievedDocument).getD 1 default).product := by
  refine ⟨⟨by decide, by decide⟩, ?_⟩
  exact claim_C10_rerank_mutates_input (fun _ t => (t.length : ℚ)) "q"
    [{ product := { id := 7, name := "A" }, score := 5, rank := 0 },
     { product := { id := 8, name := "BB" }, score := 6, rank := 0 }]
    [0, 1] (some 1) 1 (by decide) (by decide)

/-! ### Claim C6 -/

/-- C6: for every query and (resolved) variation count, the list returned by
`MultiQueryRetriever.generate_query_variations` starts with the original query
and has length at most the variation count; and when the external
text-generation call throws, the result is exactly `[query]`. -/
theorem claim_C6_query_variations (query : String) (num_variations : Option Nat)
    (llm_response : Except Unit String) :
    (MultiQueryRetriever.generate_query_variations query num_variations llm_response).head? =
        some query ∧
    (MultiQueryRetriever.generate_query_variations query num_variations llm_response).length ≤
        pyOrNat num_variations 3 ∧
    MultiQueryRetriever.generate_query_variations query num_variations (Except.error ()) =
        [query] := by
  refine ⟨?_, ?_, rfl⟩
  · cases llm_response with
    | error e =>
        simp [MultiQueryRetriever.generate_query_variations]
    | ok content =>
        obtain ⟨rest, hrest⟩ := generate_foldl_cons query (content.trim.splitOn "\n")
        have hpos := pyOrNat_pos num_variations (by norm_num : 0 < 3)
        obtain ⟨k, hk⟩ := Nat.exists_eq_succ_of_ne_zero (Nat.pos_iff_ne_zero.1 hpos)
        simp only [MultiQueryRetriever.generate_query_variations, hrest, hk,
          List.take_succ_cons, List.head?_cons]
  · cases llm_response with
    | error e =>
        have hpos := pyOrNat_pos num_variations (by norm_num : 0 < 3)
        simpa [MultiQueryRetriever.generate_query_variations] using hpos
    | ok content =>
        simpa [MultiQueryRetriever.generate_query_variations] using
          List.length_take_le (pyOrNat num_variations 3)
            ((content.trim.splitOn "\n").foldl (MultiQueryRetriever.appendVariation query) [query])

/-! ### Claim C7 -/

lemma confidence_formula_props (b : ℚ) (hb1 : 0.5 ≤ b) (hb2 : b ≤ 0.7) (n n' : Nat) :
    0.5 ≤ min (b + min ((n : ℚ) * 0.1) 0.3) 1 ∧
    min (b + min ((n : ℚ) * 0.1) 0.3) 1 ≤ 1 ∧
    (n ≤ n' →
      min (b + min ((n : ℚ) * 0.1) 0.3) 1 ≤ min (b + min ((n' : ℚ) * 0.1) 0.3) 1) ∧
    (n < n' → n' ≤ 3 →
      min (b + min ((n : ℚ) * 0.1) 0.3) 1 < min (b + min ((n' : ℚ) * 0.1) 0.3) 1) := by
  have hn0 : (0 : ℚ) ≤ (n : ℚ) * 0.1 := by positivity
  have hm0 : (0 : ℚ) ≤ min ((n : ℚ) * 0.1) 0.3 := le_min hn0 (by norm_num)
  have hm3 : min ((n : ℚ) * 0.1) 0.3 ≤ 0.3 := min_le_right _ _
  refine ⟨le_min (by linarith) (by norm_num), min_le_right _ _, ?_, ?_⟩
  · intro h
    have hq : (n : ℚ) ≤ (n' : ℚ) := by exact_mod_cast h
    gcongr
  · intro hlt hle
    have hn3 : (n : ℚ) ≤ 3 := by exact_mod_cast le_trans hlt.le hle
    have hn3' : (n' : ℚ) ≤ 3 := by exact_mod_cast hle
    have h1 : (n : ℚ) * 0.1 ≤ 0.3 := by linarith
    have h2 : (n' : ℚ) * 0.1 ≤ 0.3 := by linarith
    have hql : (n : ℚ) < (n' : ℚ) := by exact_mod_cast hlt
    rw [min_eq_left h1, min_eq_left h2, min_eq_left (by linarith), min_eq_left (by linarith)]
    linarith

/-- C7: `calculate_confidence` equals the spec formula (base `0.5`, `+0.2` for
a non-`GENERAL` intent, `+0.1` per truthy slot field capped at `+0.3`, final
cap at `1.0`), always lies in `[0.5, 1]`, and — holding the intent fixed — is
monotone in the number of filled slot fields and strictly increasing below the
caps. -/
theorem claim_C7_confidence (intent : IntentType) (slots slots' : Slots) :
    IntentDetector.calculate_confidence intent slots =
      min (0.5 + (if intent ≠ IntentType.GENERAL then 0.2 else 0) +
        min ((IntentDetector.slotCount slots : ℚ) * 0.1) 0.3) 1 ∧
    0.5 ≤ IntentDetector.calculate_confidence intent slots ∧
    IntentDetector.calculate_confidence intent slots ≤ 1 ∧
    (IntentDetector.slotCount slots ≤ IntentDetector.slotCount slots' →
      IntentDetector.calculate_confidence intent slots ≤
        IntentDetector.calculate_confidence intent slots') ∧
    (IntentDetector.slotCount slots < IntentDetector.slotCount slots' →
      IntentDetector.slotCount slots' ≤ 3 →
      IntentDetector.calculate_confidence intent slots <
        IntentDetector.calculate_confidence intent slots') := by
  have key : ∀ s : Slots, IntentDetector.calculate_confidence intent s =
      min ((if intent ≠ IntentType.GENERAL then (0.7 : ℚ) else 0.5) +
        min ((IntentDetector.slotCount s : ℚ) * 0.1) 0.3) 1 := by
    intro s
    by_cases h : intent = IntentType.GENERAL <;>
      simp [IntentDetector.calculate_confidence, h] <;> norm_num
  have hb1 : (0.5 : ℚ) ≤ (if intent ≠ IntentType.GENERAL then (0.7 : ℚ) else 0.5) := by
    by_cases h : intent = IntentType.GENERAL <;> simp [h] <;> norm_num
  have hb2 : (if intent ≠ IntentType.GENERAL then (0.7 : ℚ) else 0.5) ≤ 0.7 := by
    by_cases h : intent = IntentType.GENERAL <;> simp [h] <;> norm_num
  obtain ⟨p1, p2, p3, p4⟩ := confidence_formula_props _ hb1 hb2
    (IntentDetector.slotCount slots) (IntentDetector.slotCount slots')
  refine ⟨?_, ?_, ?_, ?_, ?_⟩
  · rw [key slots]
    by_cases h : intent = IntentType.GENERAL <;> simp [h] <;> norm_num
  · rw [key slots]; exact p1
  · rw [key slots]; exact p2
  · intro h; rw [key slots, key slots']; exact p3 h
  · intro h1 h2; rw [key slots, key slots']; exact p4 h1 h2

/-! ### Claim C3 -/

/-- Python's `max(…, key=…)` returns the first entry attaining the maximum:
the scanned list decomposes around the fold's result, with every earlier entry
strictly smaller and every entry at most the result. -/
lemma foldl_first_max (rest : List (IntentType × Nat)) :
    ∀ p : IntentType × Nat,
      ∃ l1 l2, p :: rest =
          l1 ++ (rest.foldl (fun best q => if best.2 < q.2 then q else best) p) :: l2 ∧
        (∀ x ∈ l1, x.2 < (rest.foldl (fun best q => if best.2 < q.2 then q else best) p).2) ∧
        ∀ x ∈ p :: rest, x.2 ≤ (rest.foldl (fun best q => if best.2 < q.2 then q else best) p).2 := by
  induction rest with
  | nil =>
      intro p
      exact ⟨[], [], rfl, by simp, by simp⟩
  | cons q rest' ih =>
      intro p
      rw [List.foldl_cons]
      by_cases hpq : p.2 < q.2
      · obtain ⟨l1, l2, heq, hlt, hle⟩ := ih (if p.2 < q.2 then q else p)
        rw [if_pos hpq] at heq hlt hle
        refine ⟨p :: l1, l2, by rw [if_pos hpq, List.cons_append, heq], ?_, ?_⟩
        · intro x hx
          rw [if_pos hpq]
          rcases List.mem_cons.1 hx with rfl | hx
          · exact lt_of_lt_of_le hpq (hle q (List.mem_cons_self q rest'))
          · exact hlt x hx
        · intro x hx
          rw [if_pos hpq]
          rcases List.mem_cons.1 hx with rfl | hx
          · exact le_of_lt (lt_of_lt_of_le hpq (hle q (List.mem_cons_self q rest')))
          · exact hle x hx
      · obtain ⟨l1, l2, heq, hlt, hle⟩ := ih (if p.2 < q.2 then q else p)
        rw [if_neg hpq] at heq hlt hle
        have hqp : q.2 ≤ p.2 := le_of_not_lt hpq
        cases l1 with
        | nil =>
            rw [List.nil_append] at heq
            obtain ⟨hb, hl2⟩ := List.cons.inj heq
            refine ⟨[], q :: rest', ?_, by simp, ?_⟩
            · rw [if_neg hpq, List.nil_append, ← hb]
            · intro x hx
              rw [if_neg hpq, ← hb]
              rcases List.mem_cons.1 hx with rfl | hx
              · exact le_rfl
              rcases List.mem_cons.1 hx with rfl | hx
              · exact hqp
              · exact hb ▸ hle x (List.mem_cons.2 (Or.inr hx))
        | cons y l1' =>
            rw [List.cons_append] at heq
            obtain ⟨hy, hrest'⟩ := List.cons.inj heq
            subst hy
            refine ⟨p :: q :: l1', l2, ?_, ?_, ?_⟩
            · rw [if_neg hpq, List.cons_append, List.cons_append, ← hrest']
            · intro x hx
              rw [if_neg hpq]
              rcases List.mem_cons.1 hx with rfl | hx
              · exact hlt x (List.mem_cons_self x l1')
              rcases List.mem_cons.1 hx with rfl | hx
              · exact lt_of_le_of_lt hqp (hlt p (List.mem_cons_self p l1'))
              · exact hlt x (List.mem_cons.2 (Or.inr hx))
            · intro x hx
              rw [if_neg hpq]
              rcases List.mem_cons.1 hx with rfl | hx
              · exact hle x (List.mem_cons_self x rest')
              rcases List.mem_cons.1 hx with rfl | hx
              · exact le_trans hqp (hle p (List.mem_cons_self p rest'))
              · exact hle x (List.mem_cons.2 (Or.inr hx))

lemma scoreTable_max_zero_iff (reSearch : Nat → String → Bool) (t : String) :
    pyListMax ((IntentDetector.scoreTable reSearch t).map Prod.snd) = 0 ↔
      ∀ ip ∈ IntentDetector.intent_patterns, ∀ pat ∈ ip.2, ¬ reSearch pat t := by
  constructor
  · intro h ip hip pat hpat
    have hmem : (ip.1, (ip.2.filter fun pat => reSearch pat t).length) ∈
        IntentDetector.scoreTable reSearch t := List.mem_map_of_mem _ hip
    have hsnd : (ip.2.filter fun pat => reSearch pat t).length ∈
        (IntentDetector.scoreTable reSearch t).map Prod.snd :=
      List.mem_map_of_mem Prod.snd hmem
    have hle := pyListMax_mem_le _ hsnd
    rw [h, Nat.le_zero, List.length_eq_zero] at hle
    exact (List.filter_eq_nil.1 hle) pat hpat
  · intro h
    apply pyListMax_eq_zero
    intro x hx
    obtain ⟨entry, hentry, rfl⟩ := List.mem_map.1 hx
    obtain ⟨ip, hip, rfl⟩ := List.mem_map.1 hentry
    have : ip.2.filter (fun pat => reSearch pat t) = [] :=
      List.filter_eq_nil.2 fun pat hpat => h ip hip pat hpat
    simp [this]

/-- C3: `detect_intent` returns `GENERAL` exactly when no intent pattern
matches the lower-cased text; otherwise the returned intent carries a maximal
positive pattern-match count and every intent strictly earlier in the fixed
enumeration order `PRICE_CHECK, AVAILABILITY, FEATURE_INQUIRY, COMPARISON,
SHIPPING, PURCHASE, GREETING` (the score table's key order, second conjunct)
scores strictly below it — i.e. the first maximum in that order wins. -/
theorem claim_C3_detect_intent (reSearch : Nat → String → Bool) (text : String) :
    (IntentDetector.detect_intent reSearch text = .GENERAL ↔
      ∀ ip ∈ IntentDetector.intent_patterns, ∀ pat ∈ ip.2, ¬ reSearch pat text.toLower) ∧
    (IntentDetector.scoreTable reSearch text.toLower).map Prod.fst =
      [.PRICE_CHECK, .AVAILABILITY, .FEATURE_INQUIRY, .COMPARISON, .SHIPPING,
        .PURCHASE, .GREETING] ∧
    (IntentDetector.detect_intent reSearch text ≠ .GENERAL →
      ∃ n l1 l2,
        IntentDetector.scoreTable reSearch text.toLower =
          l1 ++ (IntentDetector.detect_intent reSearch text, n) :: l2 ∧
        0 < n ∧ (∀ x ∈ l1, x.2 < n) ∧
        ∀ x ∈ IntentDetector.scoreTable reSearch text.toLower, x.2 ≤ n) := by
  have hfst : (IntentDetector.scoreTable reSearch text.toLower).map Prod.fst =
      [.PRICE_CHECK, .AVAILABILITY, .FEATURE_INQUIRY, .COMPARISON, .SHIPPING,
        .PURCHASE, .GREETING] := rfl
  have hdet : IntentDetector.detect_intent reSearch text =
      if 0 < pyListMax ((IntentDetector.scoreTable reSearch text.toLower).map Prod.snd) then
        IntentDetector.argmaxKey (IntentDetector.scoreTable reSearch text.toLower)
      else .GENERAL := rfl
  by_cases hmax :
      0 < pyListMax ((IntentDetector.scoreTable reSearch text.toLower).map Prod.snd)
  · obtain ⟨p, rest, hS⟩ : ∃ p rest,
        IntentDetector.scoreTable reSearch text.toLower = p :: rest := ⟨_, _, rfl⟩
    obtain ⟨l1, l2, heq, hlt, hle⟩ := foldl_first_max rest p
    have hbmem : rest.foldl (fun best q => if best.2 < q.2 then q else best) p ∈
        IntentDetector.scoreTable reSearch text.toLower := by
      rw [hS, heq]
      exact List.mem_append.2 (Or.inr (List.mem_cons_self _ _))
    have hbfst : (rest.foldl (fun best q => if best.2 < q.2 then q else best) p).1 ∈
        ([.PRICE_CHECK, .AVAILABILITY, .FEATURE_INQUIRY, .COMPARISON, .SHIPPING,
          .PURCHASE, .GREETING] : List IntentType) :=
      hfst ▸ List.mem_map_of_mem Prod.fst hbmem
    have hnotgen : ∀ i ∈ ([.PRICE_CHECK, .AVAILABILITY, .FEATURE_INQUIRY, .COMPARISON,
        .SHIPPING, .PURCHASE, .GREETING] : List IntentType), i ≠ IntentType.GENERAL := by
      decide
    have hda : IntentDetector.detect_intent reSearch text =
        (rest.foldl (fun best q => if best.2 < q.2 then q else best) p).1 := by
      rw [hdet, if_pos hmax, hS]
      rfl
    have hne : IntentDetector.detect_intent reSearch text ≠ .GENERAL := by
      rw [hda]
      exact hnotgen _ hbfst
    refine ⟨⟨fun h => absurd h hne, fun h => absurd ((scoreTable_max_zero_iff reSearch
      text.toLower).2 h) (by omega)⟩, hfst, ?_⟩
    intro _
    refine ⟨(rest.foldl (fun best q => if best.2 < q.2 then q else best) p).2, l1, l2,
      ?_, ?_, ?_, ?_⟩
    · rw [hda, Prod.mk.eta, hS]
      exact heq
    · have hmm : pyListMax ((IntentDetector.scoreTable reSearch text.toLower).map Prod.snd) ∈
          (IntentDetector.scoreTable reSearch text.toLower).map Prod.snd :=
        pyListMax_mem (by rw [hS]; simp)
      obtain ⟨x, hxmem, hxeq⟩ := List.mem_map.1 hmm
      rw [hS] at hxmem
      have := hle x hxmem
      omega
    · exact hlt
    · intro x hx
      rw [hS] at hx
      exact hle x hx
  · have hzero : pyListMax ((IntentDetector.scoreTable reSearch text.toLower).map Prod.snd) = 0 :=
      Nat.eq_zero_of_not_pos hmax
    have hgen : IntentDetector.detect_intent reSearch text = .GENERAL := by
      rw [hdet, if_neg hmax]
    refine ⟨⟨fun _ => (scoreTable_max_zero_iff reSearch text.toLower).1 hzero, fun _ => hgen⟩,
      hfst, fun hne => absurd hgen hne⟩

/-- Witness for C3: a matcher under which one `PRICE_CHECK` pattern and one
`COMPARISON` pattern match — the tie on score 1 resolves to `PRICE_CHECK`,
the earlier intent in the enumeration order. -/
theorem claim_C3_detect_intent_witness :
    IntentDetector.detect_intent (fun pat _ => pat == 0 || pat == 22) "x" ≠ .GENERAL ∧
    IntentDetector.detect_intent (fun pat _ => pat == 0 || pat == 22) "x" = .PRICE_CHECK ∧
    (∃ n l1 l2,
      IntentDetector.scoreTable (fun pat _ => pat == 0 || pat == 22) "x".toLower =
        l1 ++ (IntentDetector.detect_intent (fun pat _ => pat == 0 || pat == 22) "x", n) :: l2 ∧
      0 < n ∧ (∀ x ∈ l1, x.2 < n) ∧
      ∀ x ∈ IntentDetector.scoreTable (fun pat _ => pat == 0 || pat == 22) "x".toLower,
        x.2 ≤ n) := by
  refine ⟨by decide, by decide, ?_⟩
  exact (claim_C3_detect_intent (fun pat _ => pat == 0 || pat == 22) "x").2.2 (by decide)

/-! ### Claim C5 -/

lemma extract_price_range_multi {ms : List (Nat × IntentDetector.PriceUnit)}
    (h2 : 2 ≤ ms.length) :
    IntentDetector.extract_price_range ms =
      some ⟨pyListMin (ms.map fun m => IntentDetector.unitApply m.1 m.2),
        pyListMax (ms.map fun m => IntentDetector.unitApply m.1 m.2)⟩ := by
  have hne : ms ≠ [] := by
    intro e
    rw [e] at h2
    simp at h2
  have hlen : (ms.map fun m => IntentDetector.unitApply m.1 m.2).length = ms.length :=
    List.length_map _ _
  rw [IntentDetector.extract_price_range, if_neg hne, if_neg (by omega), if_pos (by omega)]

/-- C5: `extract_slots` applies the unit multipliers (million ×1,000,000 and
thousand ×1,000) to each price-bearing match; exactly one price value `v`
yields the range `{min: 0, max: v}`, and two or more values yield
`{min, max}` of the multiplied values, independently of the order of the
matches in the text. -/
theorem claim_C5_price_range (price_matches : List (Nat × IntentDetector.PriceUnit)) :
    (∀ p, IntentDetector.unitApply p .million = p * 1000000) ∧
    (∀ p, IntentDetector.unitApply p .thousand = p * 1000) ∧
    (∀ p u, IntentDetector.extract_price_range [(p, u)] =
      some ⟨0, IntentDetector.unitApply p u⟩) ∧
    (2 ≤ price_matches.length →
      ∃ lo hi, IntentDetector.extract_price_range price_matches = some ⟨lo, hi⟩ ∧
        lo ∈ (price_matches.map fun m => IntentDetector.unitApply m.1 m.2) ∧
        hi ∈ (price_matches.map fun m => IntentDetector.unitApply m.1 m.2) ∧
        ∀ x ∈ (price_matches.map fun m => IntentDetector.unitApply m.1 m.2),
          lo ≤ x ∧ x ≤ hi) ∧
    (∀ other : List (Nat × IntentDetector.PriceUnit), price_matches.Perm other →
      2 ≤ price_matches.length →
      IntentDetector.extract_price_range price_matches =
        IntentDetector.extract_price_range other) := by
  refine ⟨fun p => rfl, fun p => rfl, fun p u => rfl, ?_, ?_⟩
  · intro h2
    have hne : (price_matches.map fun m => IntentDetector.unitApply m.1 m.2) ≠ [] := by
      intro e
      have := congrArg List.length e
      simp at this
      rw [this] at h2
      simp at h2
    exact ⟨_, _, extract_price_range_multi h2, pyListMin_mem hne, pyListMax_mem hne,
      fun x hx => ⟨pyListMin_le_mem x hx, pyListMax_mem_le x hx⟩⟩
  · intro other hperm h2
    have h2' : 2 ≤ other.length := hperm.length_eq ▸ h2
    have hpm : (price_matches.map fun m => IntentDetector.unitApply m.1 m.2).Perm
        (other.map fun m => IntentDetector.unitApply m.1 m.2) := hperm.map _
    have hne : (price_matches.map fun m => IntentDetector.unitApply m.1 m.2) ≠ [] := by
      intro e
      have := congrArg List.length e
      simp at this
      rw [this] at h2
      simp at h2
    rw [extract_price_range_multi h2, extract_price_range_multi h2',
      pyListMin_perm hpm hne, pyListMax_perm hpm hne]

/-- Witness for C5 at the spec's example: two price mentions, 500 thousand and
5 million, in both orders. -/
theorem claim_C5_price_range_witness :
    (2 ≤ [((500 : Nat), IntentDetector.PriceUnit.thousand), (5, .million)].length) ∧
    [((500 : Nat), IntentDetector.PriceUnit.thousand), (5, .million)].Perm
      [(5, .million), (500, .thousand)] ∧
    (∃ lo hi,
      IntentDetector.extract_price_range
        [((500 : Nat), IntentDetector.PriceUnit.thousand), (5, .million)] = some ⟨lo, hi⟩ ∧
      lo ∈ ([((500 : Nat), IntentDetector.PriceUnit.thousand), (5, .million)].map
        fun m => IntentDetector.unitApply m.1 m.2) ∧
      hi ∈ ([((500 : Nat), IntentDetector.PriceUnit.thousand), (5, .million)].map
        fun m => IntentDetector.unitApply m.1 m.2) ∧
      ∀ x ∈ ([((500 : Nat), IntentDetector.PriceUnit.thousand), (5, .million)].map
        fun m => IntentDetector.unitApply m.1 m.2), lo ≤ x ∧ x ≤ hi) ∧
    IntentDetector.extract_price_range
        [((500 : Nat), IntentDetector.PriceUnit.thousand), (5, .million)] =
      IntentDetector.extract_price_range [(5, .million), (500, .thousand)] := by
  refine ⟨by decide, ?_, ?_, ?_⟩
  · exact List.Perm.swap _ _ _
  · exact (claim_C5_price_range _).2.2.2.1 (by decide)
  · exact (claim_C5_price_range
      [((500 : Nat), IntentDetector.PriceUnit.thousand), (5, .million)]).2.2.2.2
      [(5, .million), (500, .thousand)] (List.Perm.swap _ _ _) (by decide)

/-! ### Claim C2 — cache short-circuit -/

/-- A pipeline environment whose response cache returns the empty string for
every query: the lookup *hits* (returns a value), but the value is falsy in
Python (`if cached_response:`), so `check_cache` treats it as a miss. -/
def emptyCacheEnv : RAGPipeline.Env where
  cache_get := fun _ => some ""
  preprocess := fun s => s
  parse_query := fun normalized original =>
    { original_text := original, normalized_text := normalized, intent := .GENERAL,
      slots := {}, confidence := 0.5 }
  retrieve := fun _ _ _ => []
  rerank := fun _ docs => docs
  generate := fun _ _ _ => "generated"

/-- Counterexample to C2 as stated: with a cached *empty* string the cache
lookup returns a hit (`some ""`), yet the run does not short-circuit — the
final state has `from_cache = false`, the final response is the freshly
generated text rather than the cached value, and later stages execute. -/
theorem claim_C2_cache_hit_counterexample :
    emptyCacheEnv.cache_get "q" = some "" ∧
    (RAGPipeline.run emptyCacheEnv "q").1.from_cache = false ∧
    (RAGPipeline.run emptyCacheEnv "q").1.final_response = some "generated" ∧
    (RAGPipeline.run emptyCacheEnv "q").2 ≠ [RAGPipeline.Node.check_cache] := by
  exact ⟨rfl, rfl, rfl, by decide⟩

/-- C2 (amended: the cached value must be non-empty, since `check_cache` tests
Python truthiness rather than presence): if the cache lookup returns a
non-empty cached value, the final state has `from_cache = true` and
`final_response` equal to the cached value, and `check_cache` is the only
stage that executes — in particular no later stage runs or overwrites
`final_response`. -/
theorem claim_C2_cache_short_circuit (env : RAGPipeline.Env) (query user_id : String)
    (session_id : Option String) (cached : String)
    (hhit : env.cache_get query = some cached) (hne : cached ≠ "") :
    (RAGPipeline.run env query user_id session_id).1.from_cache = true ∧
    (RAGPipeline.run env query user_id session_id).1.final_response = some cached ∧
    (RAGPipeline.run env query user_id session_id).2 = [RAGPipeline.Node.check_cache] := by
  simp [RAGPipeline.run, RAGPipeline.runFrom, RAGPipeline.step, RAGPipeline.check_cache,
    hhit, hne, RAGPipeline.should_use_cache]

/-- A pipeline environment with a non-empty cached response. -/
def hitCacheEnv : RAGPipeline.Env where
  cache_get := fun _ => some "cached answer"
  preprocess := fun s => s
  parse_query := fun normalized original =>
    { original_text := original, normalized_text := normalized, intent := .GENERAL,
      slots := {}, confidence := 0.5 }
  retrieve := fun _ _ _ => []
  rerank := fun _ docs => docs
  generate := fun _ _ _ => "generated"

/-- Witness for the amended C2 at a concrete environment. -/
theorem claim_C2_cache_short_circuit_witness :
    hitCacheEnv.cache_get "q" = some "cached answer" ∧
    "cached answer" ≠ "" ∧
    (RAGPipeline.run hitCacheEnv "q").1.from_cache = true ∧
    (RAGPipeline.run hitCacheEnv "q").1.final_response = some "cached answer" ∧
    (RAGPipeline.run hitCacheEnv "q").2 = [RAGPipeline.Node.check_cache] := by
  have h := claim_C2_cache_short_circuit hitCacheEnv "q" "" none "cached answer" rfl
    (by decide)
  exact ⟨rfl, by decide, h.1, h.2.1, h.2.2⟩

/-! ### Claim C8 — greeting skips retrieval -/

/-- C8: on a cache miss (no cached value, or only a falsy one), if the parsed
intent is `GREETING` the machine goes from `detect_intent` directly to
`generate` — `retrieve` and `rerank` never execute — and for every other
intent it proceeds through `retrieve` and `rerank`. -/
theorem claim_C8_greeting_skips_retrieval (env : RAGPipeline.Env)
    (query user_id : String) (session_id : Option String)
    (hmiss : ∀ c, env.cache_get query = some c → c = "") :
    ((env.parse_query (env.preprocess query) query).intent = .GREETING →
      (RAGPipeline.run env query user_id session_id).2 =
        [.check_cache, .preprocess, .detect_intent, .generate, .cache_response] ∧
      RAGPipeline.Node.retrieve ∉ (RAGPipeline.run env query user_id session_id).2 ∧
      RAGPipeline.Node.rerank ∉ (RAGPipeline.run env query user_id session_id).2) ∧
    ((env.parse_query (env.preprocess query) query).intent ≠ .GREETING →
      (RAGPipeline.run env query user_id session_id).2 =
        [.check_cache, .preprocess, .detect_intent, .retrieve, .rerank, .generate,
          .cache_response]) := by
  have hstage : RAGPipeline.check_cache env
      { query := query, user_id := user_id, session_id := session_id, from_cache := false } =
      { query := query, user_id := user_id, session_id := session_id, from_cache := false } := by
    cases hc : env.cache_get query with
    | none => simp [RAGPipeline.check_cache, hc]
    | some c =>
        have := hmiss c hc
        subst this
        simp [RAGPipeline.check_cache, hc]
  constructor
  · intro hg
    refine ⟨?_, ?_, ?_⟩ <;>
      simp [RAGPipeline.run, RAGPipeline.runFrom, RAGPipeline.step, hstage,
        RAGPipeline.should_use_cache, RAGPipeline.preprocessStage,
        RAGPipeline.detect_intentStage, RAGPipeline.should_retrieve, hg,
        RAGPipeline.retrieveStage, RAGPipeline.rerankStage, RAGPipeline.generateStage,
        RAGPipeline.cache_responseStage]
  · intro hg
    simp [RAGPipeline.run, RAGPipeline.runFrom, RAGPipeline.step, hstage,
      RAGPipeline.should_use_cache, RAGPipeline.preprocessStage,
      RAGPipeline.detect_intentStage, RAGPipeline.should_retrieve, hg,
      RAGPipeline.retrieveStage, RAGPipeline.rerankStage, RAGPipeline.generateStage,
      RAGPipeline.cache_responseStage]

/-- A cache-missing environment whose classifier always reports `GREETING`. -/
def greetingEnv : RAGPipeline.Env where
  cache_get := fun _ => none
  preprocess := fun s => s
  parse_query := fun normalized original =>
    { original_text := original, normalized_text := normalized, intent := .GREETING,
      slots := {}, confidence := 0.7 }
  retrieve := fun _ _ _ => []
  rerank := fun _ docs => docs
  generate := fun _ _ _ => "hello"

/-- A cache-missing environment whose classifier always reports
`PRICE_CHECK`. -/
def priceCheckEnv : RAGPipeline.Env where
  cache_get := fun _ => none
  preprocess := fun s => s
  parse_query := fun normalized original =>
    { original_text := original, normalized_text := normalized, intent := .PRICE_CHECK,
      slots := {}, confidence := 0.7 }
  retrieve := fun _ _ _ => []
  rerank := fun _ docs => docs
  generate := fun _ _ _ => "price answer"

/-- Witness for C8 at concrete environments: a greeting run skips `retrieve`
and `rerank`, a price-check run passes through them. -/
theorem claim_C8_greeting_skips_retrieval_witness :
    ((RAGPipeline.run greetingEnv "hi").2 =
      [.check_cache, .preprocess, .detect_intent, .generate, .cache_response] ∧
     RAGPipeline.Node.retrieve ∉ (RAGPipeline.run greetingEnv "hi").2 ∧
     RAGPipeline.Node.rerank ∉ (RAGPipeline.run greetingEnv "hi").2) ∧
    (RAGPipeline.run priceCheckEnv "price?").2 =
      [.check_cache, .preprocess, .detect_intent, .retrieve, .rerank, .generate,
        .cache_response] := by
  constructor
  · exact (claim_C8_greeting_skips_retrieval greetingEnv "hi" "" none
      (fun c hc => by cases hc)).1 rfl
  · exact (claim_C8_greeting_skips_retrieval priceCheckEnv "price?" "" none
      (fun c hc => by cases hc)).2 (by decide)

/-- Witness for C7 at a concrete input: the `GREETING` intent with no slots
versus one filled brand slot. -/
theorem claim_C7_confidence_witness :
    IntentDetector.slotCount {} ≤ IntentDetector.slotCount { brand := some "x" } ∧
    IntentDetector.slotCount {} < IntentDetector.slotCount { brand := some "x" } ∧
    IntentDetector.slotCount { brand := some "x" } ≤ 3 ∧
    IntentDetector.calculate_confidence .GREETING {} ≤
      IntentDetector.calculate_confidence .GREETING { brand := some "x" } ∧
    IntentDetector.calculate_confidence .GREETING {} <
      IntentDetector.calculate_confidence .GREETING { brand := some "x" } := by
  refine ⟨by decide, by decide, by decide, ?_, ?_⟩
  · exact (claim_C7_confidence .GREETING {} { brand := some "x" }).2.2.2.1 (by decide)
  · exact (claim_C7_confidence .GREETING {} { brand := some "x" }).2.2.2.2 (by decide) (by decide)

end Megachat
